/-
Verification of the rnote stroke-content export engine
(crates/rnote-engine/src/engine/strokecontent.rs and crates/rnote-engine/src/utils.rs).

Real-number (`f64`) arithmetic is modelled by exact rationals `ℚ`.
External collaborators (the p2d bounding-volume library, the cairo drawing
backend, the `Stroke`/`Background`/`Svg` types living in other crates of the
repository) are embedded from their documented behavior; the code of
`strokecontent.rs` and `utils.rs` is translated directly.
-/
import Mathlib

set_option maxRecDepth 8192

namespace Rnote

/-! ## Axis-aligned bounding boxes (p2d `Aabb`) -/

/-- An axis-aligned bounding box with `mins`/`maxs` corners, as in
`p2d::bounding_volume::Aabb` (coordinates are `f64`, modelled as `ℚ`). -/
@[ext]
structure Aabb where
  minsX : ℚ
  minsY : ℚ
  maxsX : ℚ
  maxsY : ℚ
deriving DecidableEq, Repr

/-- The largest finite `f64` value, `f64::MAX = (2 - 2⁻⁵²)·2¹⁰²³ = 2¹⁰²⁴ - 2⁹⁷¹`,
exactly, as a natural number. -/
def f64MAXNat : ℕ := 2 ^ 1024 - 2 ^ 971

/-- The largest finite `f64` value, as an exact rational. -/
def f64MAX : ℚ := f64MAXNat

/-- `Aabb::new_invalid()`: `mins = [f64::MAX, f64::MAX]`, `maxs = [-f64::MAX, -f64::MAX]`. -/
def Aabb.new_invalid : Aabb :=
  ⟨f64MAX, f64MAX, -f64MAX, -f64MAX⟩

/-- `Aabb::merged`: componentwise `min` of the `mins` and `max` of the `maxs`. -/
def Aabb.merged (a b : Aabb) : Aabb :=
  ⟨min a.minsX b.minsX, min a.minsY b.minsY, max a.maxsX b.maxsX, max a.maxsY b.maxsY⟩

/-- `Aabb::loosened(amount)`: subtract `amount` from `mins`, add it to `maxs`. -/
def Aabb.loosened (a : Aabb) (amount : ℚ) : Aabb :=
  ⟨a.minsX - amount, a.minsY - amount, a.maxsX + amount, a.maxsY + amount⟩

/-- The x-component of `Aabb::extents()` (`maxs - mins`). -/
def Aabb.extentsX (a : Aabb) : ℚ := a.maxsX - a.minsX

/-- The y-component of `Aabb::extents()` (`maxs - mins`). -/
def Aabb.extentsY (a : Aabb) : ℚ := a.maxsY - a.minsY

/-- `Aabb::contains(other)`: `self.mins <= other.mins && self.maxs >= other.maxs`
componentwise. -/
def Aabb.contains (a b : Aabb) : Bool :=
  decide (a.minsX ≤ b.minsX ∧ a.minsY ≤ b.minsY ∧ b.maxsX ≤ a.maxsX ∧ b.maxsY ≤ a.maxsY)

/-- A box whose coordinates all lie in the range of finite `f64` values,
`[-f64::MAX, f64::MAX]`. Every box built from finite `f64` coordinates
satisfies this. -/
def Aabb.inF64Range (a : Aabb) : Prop :=
  -f64MAX ≤ a.minsX ∧ a.minsX ≤ f64MAX ∧ -f64MAX ≤ a.minsY ∧ a.minsY ≤ f64MAX ∧
  -f64MAX ≤ a.maxsX ∧ a.maxsX ≤ f64MAX ∧ -f64MAX ≤ a.maxsY ∧ a.maxsY ≤ f64MAX

instance (a : Aabb) : Decidable a.inF64Range := by
  unfold Aabb.inF64Range; infer_instance

/-! ## Colors and unit conversion (utils.rs) -/

/-- `rnote_compose::Color`: four normalized channels in `0.0 ..= 1.0`. -/
structure Color where
  r : ℚ
  g : ℚ
  b : ℚ
  a : ℚ
deriving DecidableEq, Repr

/-- `xoppformat::XoppColor`: four 8-bit channels (`u8`, modelled as `ℕ`). -/
structure XoppColor where
  red : ℕ
  green : ℕ
  blue : ℕ
  alpha : ℕ
deriving DecidableEq, Repr

/-- Rust `as u8` applied to a floored `f64`: the float-to-int cast saturates
below at `0` and above at `255`. -/
def u8Saturating (x : ℤ) : ℕ := (min 255 (max 0 x)).toNat

/-- `utils::color_from_xopp`: each `u8` channel is mapped to `channel / 255.0`. -/
def color_from_xopp (xopp_color : XoppColor) : Color :=
  { r := (xopp_color.red : ℚ) / 255
    g := (xopp_color.green : ℚ) / 255
    b := (xopp_color.blue : ℚ) / 255
    a := (xopp_color.alpha : ℚ) / 255 }

/-- One channel of `utils::xoppcolor_from_color`: `(channel * 255.0).floor() as u8`. -/
def xoppChannel (c : ℚ) : ℕ := u8Saturating ⌊c * 255⌋

/-- `utils::xoppcolor_from_color`: each normalized channel is mapped to
`(channel * 255.0).floor() as u8`. -/
def xoppcolor_from_color (color : Color) : XoppColor :=
  { red := xoppChannel color.r
    green := xoppChannel color.g
    blue := xoppChannel color.b
    alpha := xoppChannel color.a }

/-- `utils::convert_value_dpi`: `(value / current_dpi) * target_dpi`. -/
def convert_value_dpi (value current_dpi target_dpi : ℚ) : ℚ :=
  value / current_dpi * target_dpi

/-! ## Strokes, backgrounds and the stroke content container -/

/-- Modelled from the spec: the per-stroke state that the export engine can
observe or affect. `drawFails` is the failure oracle for the stroke's
`draw_to_cairo` backend call; `reducedToDarkest` records whether the
"reduce to darkest color" transform has been applied to this value. -/
structure StrokeProps where
  drawFails : Bool
  reducedToDarkest : Bool
deriving DecidableEq, Repr

/-- Modelled from the spec: the `Stroke` tagged union, restricted to the
distinction the export engine consumes — raster-backed variants
(`BitmapImage`, `VectorImage`, each carrying its `rectangle`'s bounds)
versus purely vector ones (represented by `brushStroke`, carrying its
bounding volume). -/
inductive Stroke where
  | brushStroke (bb : Aabb) (props : StrokeProps)
  | bitmapImage (rect : Aabb) (props : StrokeProps)
  | vectorImage (rect : Aabb) (props : StrokeProps)
deriving DecidableEq, Repr

/-- Modelled from the spec: `Shapeable::bounds()` of a stroke; for the
raster-backed variants this is their rectangle's bounds. -/
def Stroke.bounds : Stroke → Aabb
  | .brushStroke bb _ => bb
  | .bitmapImage rect _ => rect
  | .vectorImage rect _ => rect

/-- The props of a stroke. -/
def Stroke.props : Stroke → StrokeProps
  | .brushStroke _ p => p
  | .bitmapImage _ p => p
  | .vectorImage _ p => p

/-- Whether the stroke's backend draw call fails. -/
def Stroke.drawFails (s : Stroke) : Bool := s.props.drawFails

/-- Whether the stroke is a raster-backed variant. -/
def Stroke.isRaster : Stroke → Bool
  | .brushStroke _ _ => false
  | .bitmapImage _ _ => true
  | .vectorImage _ _ => true

/-- Modelled from the spec: `Stroke::set_to_darkest_color`, the mutating
"reduce to darkest color" operation, as a pure function on the stroke value.
It changes only the color state, not geometry or draw behavior. -/
def Stroke.setToDarkestColor : Stroke → Stroke
  | .brushStroke bb p => .brushStroke bb { p with reducedToDarkest := true }
  | .bitmapImage rect p => .bitmapImage rect { p with reducedToDarkest := true }
  | .vectorImage rect p => .vectorImage rect { p with reducedToDarkest := true }

/-- Modelled from the spec: the background descriptor, reduced to the failure
oracle of its `draw_to_cairo` call. -/
structure Background where
  drawFails : Bool
deriving DecidableEq, Repr

/-- `StrokeContent`: strokes, optional bounds override (source field name
`bounds`), optional background. -/
structure StrokeContent where
  strokes : List Stroke
  boundsOverride : Option Aabb
  background : Option Background
deriving DecidableEq, Repr

/-- `StrokeContent::bounds()`: the override if present, else `None` for an
empty stroke list, else the fold of `merged` over all stroke bounds starting
from `Aabb::new_invalid()`. -/
def StrokeContent.bounds (c : StrokeContent) : Option Aabb :=
  if c.boundsOverride.isSome then c.boundsOverride
  else if c.strokes.isEmpty then none
  else some ((c.strokes.map Stroke.bounds).foldl Aabb.merged Aabb.new_invalid)

/-! ## The cairo backend, as a trace of issued calls

The cairo context is modelled as a trace of the calls `draw_to_cairo` issues
against it. A fallible call consults its failure oracle; in the Rust code a
failing call makes the surrounding `?` return the error immediately. `save`,
`rectangle`, `clip` and `restore` are modelled as succeeding (they only fail
when the context is already in an error state, which a first failure here
immediately propagates away from). -/

/-- One call issued against the cairo context. -/
inductive CairoOp where
  | save
  | rectangle (x y width height : ℚ)
  | clip
  | restore
  | drawBackground (bounds : Aabb) (drawPattern optimizePrinting : Bool)
  | drawStroke (stroke : Stroke) (imageScale : ℚ)
deriving DecidableEq, Repr

/-- The number of `save` calls in a trace. -/
def saveCount : List CairoOp → ℕ
  | [] => 0
  | .save :: rest => saveCount rest + 1
  | _ :: rest => saveCount rest

/-- The number of `restore` calls in a trace. -/
def restoreCount : List CairoOp → ℕ
  | [] => 0
  | .restore :: rest => restoreCount rest + 1
  | _ :: rest => restoreCount rest

/-- The strokes drawn in a trace, in order. -/
def strokesDrawn : List CairoOp → List Stroke
  | [] => []
  | .drawStroke s _ :: rest => s :: strokesDrawn rest
  | _ :: rest => strokesDrawn rest

/-- The body of the per-stroke loop of `StrokeContent::draw_to_cairo`: if
`optimize_printing` is set and no image bounds contains the stroke's bounds,
the drawn value is a darkest-color-reduced clone, else the stroke itself. -/
def effectiveDrawnStroke (optimizePrinting : Bool) (imageBounds : List Aabb)
    (s : Stroke) : Stroke :=
  if optimizePrinting && imageBounds.all (fun bounds => ! bounds.contains s.bounds) then
    s.setToDarkestColor
  else s

/-- The per-stroke loop of `StrokeContent::draw_to_cairo`: draw each stroke's
effective value in sequence; a failing draw aborts the remaining iterations
with an error (Rust `?`). Returns the trace of this loop and its success. -/
def drawStrokesLoop (optimizePrinting : Bool) (imageScale : ℚ)
    (imageBounds : List Aabb) : List Stroke → List CairoOp × Bool
  | [] => ([], true)
  | s :: rest =>
    let drawn := effectiveDrawnStroke optimizePrinting imageBounds s
    if drawn.drawFails then ([.drawStroke drawn imageScale], false)
    else
      let r := drawStrokesLoop optimizePrinting imageScale imageBounds rest
      (.drawStroke drawn imageScale :: r.1, r.2)

/-- The `image_bounds` list precomputed in `draw_to_cairo`: the rectangle
bounds of every `BitmapImage` or `VectorImage` stroke, via `filter_map`. -/
def StrokeContent.imageBounds (c : StrokeContent) : List Aabb :=
  c.strokes.filterMap fun s => match s with
    | .bitmapImage rect _ => some rect
    | .vectorImage rect _ => some rect
    | _ => none

/-- The background pass body of `draw_to_cairo`: if `draw_background` is set
and a background is present, issue its draw call (which may fail). -/
def backgroundPass (c : StrokeContent) (drawBackground drawPattern optimizePrinting : Bool)
    (bl : Aabb) : List CairoOp × Bool :=
  if drawBackground then
    match c.background with
    | some bg => ([.drawBackground bl drawPattern optimizePrinting], !bg.drawFails)
    | none => ([], true)
  else ([], true)

/-- `StrokeContent::draw_to_cairo`. Returns the trace of calls issued against
the cairo context and whether the function returned `Ok(())` (`true`) or
propagated an error (`false`). A `?` early return truncates the trace at the
failing call. -/
def StrokeContent.drawToCairo (c : StrokeContent)
    (drawBackground drawPattern optimizePrinting : Bool)
    (margin imageScale : ℚ) : List CairoOp × Bool :=
  match c.bounds with
  | none => ([], true)
  | some bounds =>
    let bl := bounds.loosened margin
    let ops1 : List CairoOp :=
      [.save, .rectangle bl.minsX bl.minsY bl.extentsX bl.extentsY, .clip]
    let bg := backgroundPass c drawBackground drawPattern optimizePrinting bl
    if bg.2 then
      let ops2 : List CairoOp :=
        [.restore, .save, .rectangle bounds.minsX bounds.minsY bounds.extentsX bounds.extentsY,
          .clip]
      let lp := drawStrokesLoop optimizePrinting imageScale c.imageBounds c.strokes
      if lp.2 then (ops1 ++ bg.1 ++ ops2 ++ lp.1 ++ [.restore], true)
      else (ops1 ++ bg.1 ++ ops2 ++ lp.1, false)
    else (ops1 ++ bg.1, false)

/-- Modelled from the spec: the vector document produced by
`Svg::gen_with_cairo` — the recorded draw trace together with the bounds the
recording surface was created with. -/
structure Svg where
  ops : List CairoOp
  svgBounds : Aabb
deriving DecidableEq, Repr

/-- Modelled from the spec: `Svg::gen_with_cairo(draw_func, bounds)` records
the draw calls into a document with the given bounds, propagating a draw
error. -/
def genWithCairo (draw : List CairoOp × Bool) (bounds : Aabb) : Except Unit Svg :=
  if draw.2 then .ok ⟨draw.1, bounds⟩ else .error ()

/-- `StrokeContent::generate_svg`, parameterized by the external
`Svg::simplify` post-processing step (`simplifyFn`): compute the loosened
bounds (returning `Ok(None)` when absent), record the draw (propagating a
draw error), then attempt simplification — on simplification failure the
error is swallowed and the unsimplified document is returned. -/
def StrokeContent.generateSvg (c : StrokeContent)
    (drawBackground drawPattern optimizePrinting : Bool) (margin : ℚ)
    (simplifyFn : Svg → Except Unit Svg) : Except Unit (Option Svg) :=
  match c.bounds with
  | none => .ok none
  | some b =>
    let bounds_loosened := b.loosened margin
    match genWithCairo
        (c.drawToCairo drawBackground drawPattern optimizePrinting margin 1)
        bounds_loosened with
    | .error e => .error e
    | .ok svg =>
      match simplifyFn svg with
      | .ok simplified => .ok (some simplified)
      | .error _ => .ok (some svg)

/-! ## Helper lemmas -/

/-- One color channel survives the xopp round-trip to within `1/255`. -/
theorem channel_roundtrip (x : ℚ) (h0 : 0 ≤ x) (h1 : x ≤ 1) :
    |((xoppChannel x : ℚ)) / 255 - x| ≤ 1 / 255 := by
  have hy0 : (0 : ℤ) ≤ ⌊x * 255⌋ := Int.floor_nonneg.mpr (by positivity)
  have hy1 : ⌊x * 255⌋ ≤ 255 := by
    have hx : x * 255 ≤ (255 : ℚ) := by nlinarith
    have := Int.floor_le_floor (α := ℚ) hx
    simpa using this
  have hsat : ((xoppChannel x : ℚ)) = (⌊x * 255⌋ : ℚ) := by
    unfold xoppChannel u8Saturating
    rw [max_eq_right hy0, min_eq_right hy1]
    exact_mod_cast Int.toNat_of_nonneg hy0
  have hfl : ((⌊x * 255⌋ : ℚ)) ≤ x * 255 := Int.floor_le _
  have hfl2 : x * 255 < (⌊x * 255⌋ : ℚ) + 1 := Int.lt_floor_add_one _
  rw [hsat, abs_le]
  constructor <;> linarith

/-- The forward conversion maps a full channel to `255`. -/
theorem xoppChannel_one : xoppChannel 1 = 255 := by
  have h : ⌊(1 : ℚ) * 255⌋ = 255 := by norm_num
  show u8Saturating ⌊(1 : ℚ) * 255⌋ = 255
  rw [h]; decide

/-- The forward conversion maps a zero channel to `0`. -/
theorem xoppChannel_zero : xoppChannel 0 = 0 := by
  have h : ⌊(0 : ℚ) * 255⌋ = 0 := by norm_num
  show u8Saturating ⌊(0 : ℚ) * 255⌋ = 0
  rw [h]; decide

/-- Spec-side definition for the bounds aggregation: the union of a nonempty
collection of boxes (`b` and `bs`), taking the componentwise minimum of all
`mins` and maximum of all `maxs`. Written from the spec's words
("the union of all entities' individual bounding volumes"), to be compared
with the fold in `StrokeContent.bounds`. -/
def unionOfBounds (b : Aabb) (bs : List Aabb) : Aabb :=
  ⟨(bs.map Aabb.minsX).foldl min b.minsX, (bs.map Aabb.minsY).foldl min b.minsY,
    (bs.map Aabb.maxsX).foldl max b.maxsX, (bs.map Aabb.maxsY).foldl max b.maxsY⟩

/-- Folding `merged` over a list equals the componentwise union. -/
theorem foldl_merged_eq_union (bs : List Aabb) :
    ∀ b : Aabb, bs.foldl Aabb.merged b = unionOfBounds b bs := by
  induction bs with
  | nil => intro b; rfl
  | cons x xs ih =>
    intro b
    rw [List.foldl_cons, ih (b.merged x)]
    rfl

/-- Merging the invalid sentinel with any box whose coordinates are finite
`f64` values yields that box unchanged. -/
theorem merged_invalid_identity (b : Aabb) (h : b.inF64Range) :
    Aabb.new_invalid.merged b = b := by
  obtain ⟨h1, h2, h3, h4, h5, h6, h7, h8⟩ := h
  unfold Aabb.new_invalid Aabb.merged
  ext
  · exact min_eq_right h2
  · exact min_eq_right h4
  · exact max_eq_right h5
  · exact max_eq_right h7

/-- `max` is right-commutative. -/
theorem qmax_right_comm (a b c : ℚ) : max (max a b) c = max (max a c) b := by
  rw [max_assoc, max_comm b c, ← max_assoc]

/-- `merged` is right-commutative, so folds over permuted lists agree. -/
theorem merged_right_comm (b x y : Aabb) :
    (b.merged x).merged y = (b.merged y).merged x := by
  unfold Aabb.merged
  ext
  · exact min_right_comm b.minsX x.minsX y.minsX
  · exact min_right_comm b.minsY x.minsY y.minsY
  · exact qmax_right_comm b.maxsX x.maxsX y.maxsX
  · exact qmax_right_comm b.maxsY x.maxsY y.maxsY

/-- Folding `merged` is invariant under permutation of the folded list. -/
theorem foldl_merged_perm {l₁ l₂ : List Aabb} (h : l₁.Perm l₂) :
    ∀ b : Aabb, l₁.foldl Aabb.merged b = l₂.foldl Aabb.merged b := by
  induction h with
  | nil => intro b; rfl
  | cons x _ ih => intro b; rw [List.foldl_cons, List.foldl_cons]; exact ih _
  | swap x y l =>
    intro b
    rw [List.foldl_cons, List.foldl_cons, List.foldl_cons, List.foldl_cons, merged_right_comm]
  | trans _ _ ih₁ ih₂ => intro b; exact (ih₁ b).trans (ih₂ b)

/-! ## Claim theorems -/

/-- C8: for every value `v` and every DPI `d ≠ 0`,
`convert_value_dpi v d d = v` — DPI conversion with identical source and
target resolution is the identity (`f64` arithmetic modelled as exact
rationals). -/
theorem C8_convert_value_dpi_identity (v d : ℚ) (h : d ≠ 0) :
    convert_value_dpi v d d = v := by
  unfold convert_value_dpi
  field_simp

/-- Witness for C8 at `v = 7`, `d = 3`. -/
theorem C8_convert_value_dpi_identity_witness :
    (3 : ℚ) ≠ 0 ∧ convert_value_dpi 7 3 3 = 7 :=
  ⟨by norm_num, C8_convert_value_dpi_identity 7 3 (by norm_num)⟩

/-- C9: for every color with channels in `[0, 1]`, converting to an xopp
color and back changes each channel by at most `1/255` (the forward
conversion truncates with `floor`), and `xoppcolor_from_color` maps a channel
value of `1.0` to `255` and `0.0` to `0`. -/
theorem C9_color_roundtrip (c : Color)
    (hr0 : 0 ≤ c.r) (hr1 : c.r ≤ 1) (hg0 : 0 ≤ c.g) (hg1 : c.g ≤ 1)
    (hb0 : 0 ≤ c.b) (hb1 : c.b ≤ 1) (ha0 : 0 ≤ c.a) (ha1 : c.a ≤ 1) :
    (|(color_from_xopp (xoppcolor_from_color c)).r - c.r| ≤ 1 / 255 ∧
      |(color_from_xopp (xoppcolor_from_color c)).g - c.g| ≤ 1 / 255 ∧
      |(color_from_xopp (xoppcolor_from_color c)).b - c.b| ≤ 1 / 255 ∧
      |(color_from_xopp (xoppcolor_from_color c)).a - c.a| ≤ 1 / 255) ∧
    xoppChannel 1 = 255 ∧ xoppChannel 0 = 0 := by
  refine ⟨⟨?_, ?_, ?_, ?_⟩, xoppChannel_one, xoppChannel_zero⟩ <;>
    simp only [color_from_xopp, xoppcolor_from_color] <;>
    apply channel_roundtrip <;> assumption

/-- Witness for C9 at `c = ⟨1/3, 0, 1, 1/2⟩`. -/
theorem C9_color_roundtrip_witness :
    ((0 : ℚ) ≤ 1 / 3 ∧ (1 / 3 : ℚ) ≤ 1) ∧
    ((|(color_from_xopp (xoppcolor_from_color ⟨1 / 3, 0, 1, 1 / 2⟩)).r - 1 / 3| ≤ 1 / 255 ∧
        |(color_from_xopp (xoppcolor_from_color ⟨1 / 3, 0, 1, 1 / 2⟩)).g - 0| ≤ 1 / 255 ∧
        |(color_from_xopp (xoppcolor_from_color ⟨1 / 3, 0, 1, 1 / 2⟩)).b - 1| ≤ 1 / 255 ∧
        |(color_from_xopp (xoppcolor_from_color ⟨1 / 3, 0, 1, 1 / 2⟩)).a - 1 / 2| ≤ 1 / 255) ∧
      xoppChannel 1 = 255 ∧ xoppChannel 0 = 0) :=
  ⟨⟨by norm_num, by norm_num⟩,
    C9_color_roundtrip ⟨1 / 3, 0, 1, 1 / 2⟩ (by norm_num) (by norm_num) (by norm_num)
      (by norm_num) (by norm_num) (by norm_num) (by norm_num) (by norm_num)⟩

/-- C3: whenever the bounds override is present, `bounds()` returns exactly
the override, for every contents of the strokes list (including the empty
list). -/
theorem C3_bounds_override (c : StrokeContent) (b : Aabb)
    (h : c.boundsOverride = some b) : c.bounds = some b := by
  simp [StrokeContent.bounds, h]

/-- Witness for C3 at an empty stroke list with override `⟨0, 0, 2, 3⟩`. -/
theorem C3_bounds_override_witness :
    StrokeContent.bounds ⟨[], some ⟨0, 0, 2, 3⟩, none⟩ = some ⟨0, 0, 2, 3⟩ :=
  C3_bounds_override ⟨[], some ⟨0, 0, 2, 3⟩, none⟩ ⟨0, 0, 2, 3⟩ rfl

/-- C10: under `optimize_printing = true`, a raster-backed stroke is never
color-reduced: its bounding volume is a member of the precomputed
`image_bounds` list, containment is reflexive, so the loop body draws it
unmodified. -/
theorem C10_raster_never_reduced (c : StrokeContent) (s : Stroke)
    (hmem : s ∈ c.strokes) (hraster : s.isRaster = true) :
    s.bounds ∈ c.imageBounds ∧ Aabb.contains s.bounds s.bounds = true ∧
    effectiveDrawnStroke true c.imageBounds s = s := by
  have hib : s.bounds ∈ c.imageBounds := by
    cases s with
    | brushStroke bb p => simp [Stroke.isRaster] at hraster
    | bitmapImage rect p =>
      exact List.mem_filterMap.mpr ⟨.bitmapImage rect p, hmem, rfl⟩
    | vectorImage rect p =>
      exact List.mem_filterMap.mpr ⟨.vectorImage rect p, hmem, rfl⟩
  have hcont : Aabb.contains s.bounds s.bounds = true := by
    simp [Aabb.contains]
  have hall : (c.imageBounds.all fun bounds => ! bounds.contains s.bounds) = false := by
    rw [List.all_eq_false]
    exact ⟨s.bounds, hib, by simp [hcont]⟩
  exact ⟨hib, hcont, by simp [effectiveDrawnStroke, hall]⟩

/-- Witness for C10 at a container holding a single bitmap image stroke. -/
theorem C10_raster_never_reduced_witness :
    Stroke.bitmapImage ⟨0, 0, 4, 4⟩ ⟨false, false⟩ ∈
        (StrokeContent.mk [.bitmapImage ⟨0, 0, 4, 4⟩ ⟨false, false⟩] none none).strokes ∧
    (Stroke.bitmapImage ⟨0, 0, 4, 4⟩ ⟨false, false⟩).isRaster = true ∧
    ((Stroke.bitmapImage ⟨0, 0, 4, 4⟩ ⟨false, false⟩).bounds ∈
        (StrokeContent.mk [.bitmapImage ⟨0, 0, 4, 4⟩ ⟨false, false⟩] none none).imageBounds ∧
      Aabb.contains (Stroke.bitmapImage ⟨0, 0, 4, 4⟩ ⟨false, false⟩).bounds
          (Stroke.bitmapImage ⟨0, 0, 4, 4⟩ ⟨false, false⟩).bounds = true ∧
      effectiveDrawnStroke true
          (StrokeContent.mk [.bitmapImage ⟨0, 0, 4, 4⟩ ⟨false, false⟩] none none).imageBounds
          (Stroke.bitmapImage ⟨0, 0, 4, 4⟩ ⟨false, false⟩) =
        Stroke.bitmapImage ⟨0, 0, 4, 4⟩ ⟨false, false⟩) :=
  ⟨by decide, by decide,
    C10_raster_never_reduced (StrokeContent.mk [.bitmapImage ⟨0, 0, 4, 4⟩ ⟨false, false⟩] none none)
      (Stroke.bitmapImage ⟨0, 0, 4, 4⟩ ⟨false, false⟩) (by decide) (by decide)⟩

/-- C4: with no override and a non-empty strokes list, `bounds()` is the
union of all individual stroke bounding volumes; the invalid sentinel is a
merge identity on finite boxes; and the result is invariant under any
permutation of the strokes list. (The sentinel's coordinates are
`±f64::MAX`, so the identity holds exactly for boxes with finite `f64`
coordinates — the hypothesis on the head stroke.) -/
theorem C4_bounds_union (c : StrokeContent) (s₀ : Stroke) (rest : List Stroke)
    (hov : c.boundsOverride = none) (hs : c.strokes = s₀ :: rest)
    (hrange : s₀.bounds.inF64Range) :
    c.bounds = some (unionOfBounds s₀.bounds (rest.map Stroke.bounds)) ∧
    (∀ b : Aabb, b.inF64Range → Aabb.new_invalid.merged b = b) ∧
    (∀ c₂ : StrokeContent, c₂.boundsOverride = none → c₂.strokes.Perm c.strokes →
      c₂.bounds = c.bounds) := by
  refine ⟨?_, fun b hb => merged_invalid_identity b hb, ?_⟩
  · simp only [StrokeContent.bounds, hov, hs, Option.isSome_none, Bool.false_eq_true,
      if_false, List.isEmpty_cons, List.map_cons, List.foldl_cons]
    rw [merged_invalid_identity s₀.bounds hrange, foldl_merged_eq_union]
  · intro c₂ hov₂ hperm
    rw [hs] at hperm
    have hne : c₂.strokes.isEmpty = false := by
      cases hse : c₂.strokes with
      | nil =>
        have hlen := hperm.length_eq
        rw [hse] at hlen
        simp at hlen
      | cons a l => rfl
    simp only [StrokeContent.bounds, hov, hov₂, hs, Option.isSome_none, Bool.false_eq_true,
      if_false, List.isEmpty_cons, hne]
    exact congrArg some (foldl_merged_perm (hperm.map Stroke.bounds) _)

/-- Witness for C4 at a two-stroke container. -/
theorem C4_bounds_union_witness :
    (StrokeContent.mk [.brushStroke ⟨0, 0, 1, 1⟩ ⟨false, false⟩,
        .brushStroke ⟨-1, 2, 3, 4⟩ ⟨false, false⟩] none none).boundsOverride = none ∧
    (StrokeContent.mk [.brushStroke ⟨0, 0, 1, 1⟩ ⟨false, false⟩,
        .brushStroke ⟨-1, 2, 3, 4⟩ ⟨false, false⟩] none none).strokes =
      Stroke.brushStroke ⟨0, 0, 1, 1⟩ ⟨false, false⟩ ::
        [.brushStroke ⟨-1, 2, 3, 4⟩ ⟨false, false⟩] ∧
    (Stroke.brushStroke ⟨0, 0, 1, 1⟩ ⟨false, false⟩).bounds.inF64Range ∧
    ((StrokeContent.mk [.brushStroke ⟨0, 0, 1, 1⟩ ⟨false, false⟩,
          .brushStroke ⟨-1, 2, 3, 4⟩ ⟨false, false⟩] none none).bounds =
        some (unionOfBounds (Stroke.brushStroke ⟨0, 0, 1, 1⟩ ⟨false, false⟩).bounds
          ([Stroke.brushStroke ⟨-1, 2, 3, 4⟩ ⟨false, false⟩].map Stroke.bounds)) ∧
      (∀ b : Aabb, b.inF64Range → Aabb.new_invalid.merged b = b) ∧
      (∀ c₂ : StrokeContent, c₂.boundsOverride = none →
        c₂.strokes.Perm (StrokeContent.mk [.brushStroke ⟨0, 0, 1, 1⟩ ⟨false, false⟩,
          .brushStroke ⟨-1, 2, 3, 4⟩ ⟨false, false⟩] none none).strokes →
        c₂.bounds = (StrokeContent.mk [.brushStroke ⟨0, 0, 1, 1⟩ ⟨false, false⟩,
          .brushStroke ⟨-1, 2, 3, 4⟩ ⟨false, false⟩] none none).bounds)) :=
  ⟨rfl, rfl, by decide,
    C4_bounds_union _ (.brushStroke ⟨0, 0, 1, 1⟩ ⟨false, false⟩)
      [.brushStroke ⟨-1, 2, 3, 4⟩ ⟨false, false⟩] rfl rfl (by decide)⟩

/-- If every effectively drawn stroke's draw succeeds, the loop draws every
stroke's effective value in order and succeeds. -/
theorem drawStrokesLoop_ok (op : Bool) (scale : ℚ) (ib : List Aabb) (l : List Stroke)
    (h : ∀ s ∈ l, (effectiveDrawnStroke op ib s).drawFails = false) :
    drawStrokesLoop op scale ib l =
      (l.map fun s => .drawStroke (effectiveDrawnStroke op ib s) scale, true) := by
  induction l with
  | nil => rfl
  | cons s rest ih =>
    have hs := h s (List.mem_cons_self s rest)
    have hrest := ih fun s hs => h s (List.mem_cons_of_mem _ hs)
    simp [drawStrokesLoop, hs, hrest]

/-- The loop always draws the effective values of a prefix of the strokes. -/
theorem drawStrokesLoop_take (op : Bool) (scale : ℚ) (ib : List Aabb) (l : List Stroke) :
    ∃ k, (drawStrokesLoop op scale ib l).1 =
      (l.take k).map fun s => CairoOp.drawStroke (effectiveDrawnStroke op ib s) scale := by
  induction l with
  | nil => exact ⟨0, rfl⟩
  | cons s rest ih =>
    by_cases hf : (effectiveDrawnStroke op ib s).drawFails = true
    · exact ⟨1, by simp [drawStrokesLoop, hf]⟩
    · obtain ⟨k, hk⟩ := ih
      exact ⟨k + 1, by simp [drawStrokesLoop, hf, List.take_succ_cons, hk]⟩

/-- Extracting the drawn strokes from a pure sequence of stroke draw calls. -/
theorem strokesDrawn_map_drawStroke (g : Stroke → Stroke) (scale : ℚ) (l : List Stroke) :
    strokesDrawn (l.map fun s => .drawStroke (g s) scale) = l.map g := by
  induction l with
  | nil => rfl
  | cons s rest ih => simp only [List.map_cons]; simp [strokesDrawn, ih]

/-- A pure sequence of stroke draw calls contains no `save`. -/
theorem saveCount_map_drawStroke (g : Stroke → Stroke) (scale : ℚ) (l : List Stroke) :
    saveCount (l.map fun s => .drawStroke (g s) scale) = 0 := by
  induction l with
  | nil => rfl
  | cons s rest ih => simp only [List.map_cons]; simp [saveCount, ih]

/-- A pure sequence of stroke draw calls contains no `restore`. -/
theorem restoreCount_map_drawStroke (g : Stroke → Stroke) (scale : ℚ) (l : List Stroke) :
    restoreCount (l.map fun s => .drawStroke (g s) scale) = 0 := by
  induction l with
  | nil => rfl
  | cons s rest ih => simp only [List.map_cons]; simp [restoreCount, ih]

/-- The background pass issues no `save`, no `restore` and no stroke draw. -/
theorem backgroundPass_trace (c : StrokeContent) (db dp op : Bool) (bl : Aabb) :
    saveCount (backgroundPass c db dp op bl).1 = 0 ∧
    restoreCount (backgroundPass c db dp op bl).1 = 0 ∧
    strokesDrawn (backgroundPass c db dp op bl).1 = [] := by
  unfold backgroundPass
  split
  · cases c.background with
    | some bg => exact ⟨rfl, rfl, rfl⟩
    | none => exact ⟨rfl, rfl, rfl⟩
  · exact ⟨rfl, rfl, rfl⟩

/-- The background pass succeeds when any configured background draw succeeds. -/
theorem backgroundPass_ok (c : StrokeContent) (db dp op : Bool) (bl : Aabb)
    (h : ∀ bg, c.background = some bg → bg.drawFails = false) :
    (backgroundPass c db dp op bl).2 = true := by
  unfold backgroundPass
  split
  · cases hbg : c.background with
    | some bg => simp [h bg hbg]
    | none => rfl
  · rfl

/-- If `bounds()` is absent, the strokes list is empty. -/
theorem bounds_none_strokes (c : StrokeContent) (h : c.bounds = none) :
    c.strokes = [] := by
  unfold StrokeContent.bounds at h
  by_cases h1 : c.boundsOverride.isSome
  · simp [h1] at h
    simp [h] at h1
  · simp only [h1, Bool.false_eq_true, if_false] at h
    by_cases h2 : c.strokes.isEmpty
    · exact List.isEmpty_iff.mp h2
    · simp [h2] at h

/-- C5: with an empty strokes list and no bounds override, `draw_to_cairo`
returns `Ok(())` while issuing no backend calls at all, and `generate_svg`
returns `Ok(None)` — for every flag combination, margin, image scale and
simplify behavior. -/
theorem C5_empty_noop (c : StrokeContent) (db dp op : Bool) (margin scale : ℚ)
    (hstrokes : c.strokes = []) (hov : c.boundsOverride = none) :
    c.drawToCairo db dp op margin scale = ([], true) ∧
    ∀ simplifyFn, c.generateSvg db dp op margin simplifyFn = .ok none := by
  have hb : c.bounds = none := by
    simp [StrokeContent.bounds, hov, hstrokes]
  constructor
  · simp [StrokeContent.drawToCairo, hb]
  · intro simplifyFn
    simp [StrokeContent.generateSvg, hb]

/-- Witness for C5 at the empty container. -/
theorem C5_empty_noop_witness :
    (StrokeContent.mk [] none none).strokes = [] ∧
    (StrokeContent.mk [] none none).boundsOverride = none ∧
    (StrokeContent.mk [] none none).drawToCairo true true true 6 1 = ([], true) ∧
    (StrokeContent.mk [] none none).generateSvg true true true 6 (fun s => .ok s) =
      .ok none :=
  ⟨rfl, rfl, (C5_empty_noop (.mk [] none none) true true true 6 1 rfl rfl).1,
    (C5_empty_noop (.mk [] none none) true true true 6 1 rfl rfl).2 (fun s => .ok s)⟩

/-- C7: when the render succeeds but `simplify` fails, the failure is
swallowed: `generate_svg` returns `Ok(Some(document))` with the unnormalized
document, never propagating the normalization error. -/
theorem C7_simplify_failure_swallowed (c : StrokeContent) (db dp op : Bool)
    (margin : ℚ) (b : Aabb) (simplifyFn : Svg → Except Unit Svg)
    (hb : c.bounds = some b)
    (hdraw : (c.drawToCairo db dp op margin 1).2 = true)
    (hfail : simplifyFn ⟨(c.drawToCairo db dp op margin 1).1, b.loosened margin⟩ =
      .error ()) :
    c.generateSvg db dp op margin simplifyFn =
      .ok (some ⟨(c.drawToCairo db dp op margin 1).1, b.loosened margin⟩) := by
  simp [StrokeContent.generateSvg, hb, genWithCairo, hdraw, hfail]

/-- Witness for C7 at an override-bounds container and an always-failing
simplify step. -/
theorem C7_simplify_failure_swallowed_witness :
    (StrokeContent.mk [] (some ⟨0, 0, 1, 1⟩) none).bounds = some ⟨0, 0, 1, 1⟩ ∧
    ((StrokeContent.mk [] (some ⟨0, 0, 1, 1⟩) none).drawToCairo true true true 0 1).2 =
      true ∧
    (fun (_ : Svg) => (.error () : Except Unit Svg))
        ⟨((StrokeContent.mk [] (some ⟨0, 0, 1, 1⟩) none).drawToCairo true true true 0 1).1,
          Aabb.loosened ⟨0, 0, 1, 1⟩ 0⟩ = .error () ∧
    (StrokeContent.mk [] (some ⟨0, 0, 1, 1⟩) none).generateSvg true true true 0
        (fun _ => .error ()) =
      .ok (some ⟨((StrokeContent.mk [] (some ⟨0, 0, 1, 1⟩) none).drawToCairo
          true true true 0 1).1, Aabb.loosened ⟨0, 0, 1, 1⟩ 0⟩) :=
  ⟨by decide, by decide, rfl,
    C7_simplify_failure_swallowed (.mk [] (some ⟨0, 0, 1, 1⟩) none) true true true 0
      ⟨0, 0, 1, 1⟩ (fun _ => .error ()) (by decide) (by decide) rfl⟩

/-- `strokesDrawn` distributes over append. -/
theorem strokesDrawn_append (l₁ l₂ : List CairoOp) :
    strokesDrawn (l₁ ++ l₂) = strokesDrawn l₁ ++ strokesDrawn l₂ := by
  induction l₁ with
  | nil => rfl
  | cons op rest ih => cases op <;> simp [strokesDrawn, ih]

/-- A truncated pure sequence of stroke draw calls contains no `save`. -/
theorem saveCount_take_drawStroke (g : Stroke → Stroke) (scale : ℚ) (l : List Stroke)
    (k : ℕ) :
    saveCount ((l.map fun s => CairoOp.drawStroke (g s) scale).take k) = 0 := by
  rw [← List.map_take]
  exact saveCount_map_drawStroke g scale (l.take k)

/-- A truncated pure sequence of stroke draw calls contains no `restore`. -/
theorem restoreCount_take_drawStroke (g : Stroke → Stroke) (scale : ℚ) (l : List Stroke)
    (k : ℕ) :
    restoreCount ((l.map fun s => CairoOp.drawStroke (g s) scale).take k) = 0 := by
  rw [← List.map_take]
  exact restoreCount_map_drawStroke g scale (l.take k)

/-- Extracting the drawn strokes from a truncated sequence of stroke draws. -/
theorem strokesDrawn_take_drawStroke (g : Stroke → Stroke) (scale : ℚ) (l : List Stroke)
    (k : ℕ) :
    strokesDrawn ((l.map fun s => CairoOp.drawStroke (g s) scale).take k) =
      (l.take k).map g := by
  rw [← List.map_take]
  exact strokesDrawn_map_drawStroke g scale (l.take k)

/-- `saveCount` distributes over append. -/
theorem saveCount_append (l₁ l₂ : List CairoOp) :
    saveCount (l₁ ++ l₂) = saveCount l₁ + saveCount l₂ := by
  induction l₁ with
  | nil => simp [saveCount]
  | cons op rest ih =>
    cases op
    all_goals simp [saveCount, ih]
    all_goals omega

/-- `restoreCount` distributes over append. -/
theorem restoreCount_append (l₁ l₂ : List CairoOp) :
    restoreCount (l₁ ++ l₂) = restoreCount l₁ + restoreCount l₂ := by
  induction l₁ with
  | nil => simp [restoreCount]
  | cons op rest ih =>
    cases op
    all_goals simp [restoreCount, ih]
    all_goals omega

/-- The containment dichotomy of the loop body under `optimize_printing`:
an enclosing image bounds exempts the stroke; none forces the reduced clone. -/
theorem effectiveDrawnStroke_dichotomy (ibs : List Aabb) (s : Stroke) :
    ((∃ ib ∈ ibs, ib.contains s.bounds = true) →
      effectiveDrawnStroke true ibs s = s) ∧
    ((∀ ib ∈ ibs, ib.contains s.bounds = false) →
      effectiveDrawnStroke true ibs s = s.setToDarkestColor) := by
  constructor
  · rintro ⟨ib, hib, hc⟩
    have hall : (ibs.all fun bounds => ! bounds.contains s.bounds) = false :=
      List.all_eq_false.mpr ⟨ib, hib, by simp [hc]⟩
    simp [effectiveDrawnStroke, hall]
  · intro hall
    have h : (ibs.all fun bounds => ! bounds.contains s.bounds) = true :=
      List.all_eq_true.mpr fun ib hib => by simp [hall ib hib]
    simp [effectiveDrawnStroke, h]

/-- C1: under `optimize_printing = true` (and all backend draws succeeding),
`draw_to_cairo` draws each stroke's effective value in order, where a stroke
contained in some raster image's bounding volume is drawn unmodified and a
stroke contained in none is drawn as its darkest-color-reduced clone; the
container's strokes are consumed immutably (the reduced value is a fresh
clone, `setToDarkestColor s`). -/
theorem C1_optimize_printing (c : StrokeContent) (db dp : Bool) (margin scale : ℚ)
    (hstrokes : ∀ s ∈ c.strokes,
      (effectiveDrawnStroke true c.imageBounds s).drawFails = false)
    (hbg : ∀ bg, c.background = some bg → bg.drawFails = false) :
    (c.drawToCairo db dp true margin scale).2 = true ∧
    strokesDrawn (c.drawToCairo db dp true margin scale).1 =
      c.strokes.map (effectiveDrawnStroke true c.imageBounds) ∧
    ∀ s ∈ c.strokes,
      ((∃ ib ∈ c.imageBounds, ib.contains s.bounds = true) →
        effectiveDrawnStroke true c.imageBounds s = s) ∧
      ((∀ ib ∈ c.imageBounds, ib.contains s.bounds = false) →
        effectiveDrawnStroke true c.imageBounds s = s.setToDarkestColor) := by
  have hmain : (c.drawToCairo db dp true margin scale).2 = true ∧
      strokesDrawn (c.drawToCairo db dp true margin scale).1 =
        c.strokes.map (effectiveDrawnStroke true c.imageBounds) := by
    cases hb : c.bounds with
    | none =>
      have hempty := bounds_none_strokes c hb
      simp only [StrokeContent.drawToCairo, hb, hempty]
      exact ⟨by trivial, rfl⟩
    | some b =>
      have hbgok := backgroundPass_ok c db dp true (b.loosened margin) hbg
      have hloop := drawStrokesLoop_ok true scale c.imageBounds c.strokes hstrokes
      obtain ⟨-, -, hbD⟩ := backgroundPass_trace c db dp true (b.loosened margin)
      simp only [StrokeContent.drawToCairo, hb, hbgok, hloop, if_true]
      refine ⟨by trivial, ?_⟩
      simp [strokesDrawn, strokesDrawn_append, hbD, strokesDrawn_map_drawStroke]
  exact ⟨hmain.1, hmain.2, fun s _ => effectiveDrawnStroke_dichotomy c.imageBounds s⟩

/-- Witness for C1 at a container holding an image, a brush stroke inside it
and a brush stroke outside it. -/
theorem C1_optimize_printing_witness :
    (∀ s ∈ (StrokeContent.mk [.bitmapImage ⟨0, 0, 10, 10⟩ ⟨false, false⟩,
        .brushStroke ⟨1, 1, 2, 2⟩ ⟨false, false⟩,
        .brushStroke ⟨20, 20, 21, 21⟩ ⟨false, false⟩] none none).strokes,
      (effectiveDrawnStroke true (StrokeContent.mk [.bitmapImage ⟨0, 0, 10, 10⟩ ⟨false, false⟩,
        .brushStroke ⟨1, 1, 2, 2⟩ ⟨false, false⟩,
        .brushStroke ⟨20, 20, 21, 21⟩ ⟨false, false⟩] none none).imageBounds s).drawFails =
        false) ∧
    ((StrokeContent.mk [.bitmapImage ⟨0, 0, 10, 10⟩ ⟨false, false⟩,
        .brushStroke ⟨1, 1, 2, 2⟩ ⟨false, false⟩,
        .brushStroke ⟨20, 20, 21, 21⟩ ⟨false, false⟩] none none).drawToCairo
        false false true 0 1).2 = true ∧
    strokesDrawn ((StrokeContent.mk [.bitmapImage ⟨0, 0, 10, 10⟩ ⟨false, false⟩,
        .brushStroke ⟨1, 1, 2, 2⟩ ⟨false, false⟩,
        .brushStroke ⟨20, 20, 21, 21⟩ ⟨false, false⟩] none none).drawToCairo
        false false true 0 1).1 =
      (StrokeContent.mk [.bitmapImage ⟨0, 0, 10, 10⟩ ⟨false, false⟩,
        .brushStroke ⟨1, 1, 2, 2⟩ ⟨false, false⟩,
        .brushStroke ⟨20, 20, 21, 21⟩ ⟨false, false⟩] none none).strokes.map
        (effectiveDrawnStroke true (StrokeContent.mk [.bitmapImage ⟨0, 0, 10, 10⟩ ⟨false, false⟩,
          .brushStroke ⟨1, 1, 2, 2⟩ ⟨false, false⟩,
          .brushStroke ⟨20, 20, 21, 21⟩ ⟨false, false⟩] none none).imageBounds) :=
  ⟨by decide,
    (C1_optimize_printing (.mk [.bitmapImage ⟨0, 0, 10, 10⟩ ⟨false, false⟩,
        .brushStroke ⟨1, 1, 2, 2⟩ ⟨false, false⟩,
        .brushStroke ⟨20, 20, 21, 21⟩ ⟨false, false⟩] none none) false false 0 1
      (by decide) (fun bg h => nomatch h)).1,
    (C1_optimize_printing (.mk [.bitmapImage ⟨0, 0, 10, 10⟩ ⟨false, false⟩,
        .brushStroke ⟨1, 1, 2, 2⟩ ⟨false, false⟩,
        .brushStroke ⟨20, 20, 21, 21⟩ ⟨false, false⟩] none none) false false 0 1
      (by decide) (fun bg h => nomatch h)).2.1⟩

/-- C2 counterexample: with a single stroke whose backend draw fails,
`draw_to_cairo` propagates the error while the trace holds two `save` calls
but only one `restore` — the clip state of the failing pass is not released
on this exit path, contradicting the claim. -/
theorem C2_counterexample :
    (((StrokeContent.mk [.brushStroke ⟨0, 0, 1, 1⟩ ⟨true, false⟩] none none).drawToCairo
        true true false 0 1).2 = false) ∧
    saveCount ((StrokeContent.mk [.brushStroke ⟨0, 0, 1, 1⟩ ⟨true, false⟩] none none).drawToCairo
        true true false 0 1).1 = 2 ∧
    restoreCount ((StrokeContent.mk [.brushStroke ⟨0, 0, 1, 1⟩ ⟨true, false⟩] none none).drawToCairo
        true true false 0 1).1 = 1 := by
  decide

/-- C2 amended: on the success path every acquired clip/save state is
released (saves equal restores); a background or stroke draw failure aborts
the remaining loop iterations and propagates immediately, leaving exactly one
`save` unreleased — the scoped clip state of the failing pass is NOT restored
before propagation. The drawn strokes always form an in-order prefix of the
container's (effective) strokes. -/
theorem C2_amended_scoped_state (c : StrokeContent) (db dp op : Bool) (margin scale : ℚ) :
    saveCount (c.drawToCairo db dp op margin scale).1 =
      restoreCount (c.drawToCairo db dp op margin scale).1 +
        (if (c.drawToCairo db dp op margin scale).2 then 0 else 1) ∧
    ∃ k, strokesDrawn (c.drawToCairo db dp op margin scale).1 =
      (c.strokes.take k).map (effectiveDrawnStroke op c.imageBounds) := by
  cases hb : c.bounds with
  | none =>
    simp only [StrokeContent.drawToCairo, hb]
    exact ⟨rfl, 0, rfl⟩
  | some b =>
    obtain ⟨hbS, hbR, hbD⟩ := backgroundPass_trace c db dp op (b.loosened margin)
    obtain ⟨k, hk⟩ := drawStrokesLoop_take op scale c.imageBounds c.strokes
    cases hbg : (backgroundPass c db dp op (b.loosened margin)).2 with
    | false =>
      simp only [StrokeContent.drawToCairo, hb, hbg, Bool.false_eq_true, if_false]
      refine ⟨?_, 0, ?_⟩
      · simp [saveCount, restoreCount, saveCount_append, restoreCount_append, hbS, hbR]
      · simp [strokesDrawn, strokesDrawn_append, hbD]
    | true =>
      cases hlp : (drawStrokesLoop op scale c.imageBounds c.strokes).2 with
      | false =>
        simp only [StrokeContent.drawToCairo, hb, hbg, hlp, if_true, Bool.false_eq_true,
          if_false]
        refine ⟨?_, k, ?_⟩
        · simp [saveCount, restoreCount, saveCount_append, restoreCount_append, hbS, hbR,
            hk, saveCount_map_drawStroke, restoreCount_map_drawStroke,
            saveCount_take_drawStroke, restoreCount_take_drawStroke]
        · simp [strokesDrawn, strokesDrawn_append, hbD, hk, strokesDrawn_map_drawStroke,
            strokesDrawn_take_drawStroke]
      | true =>
        simp only [StrokeContent.drawToCairo, hb, hbg, hlp, if_true]
        refine ⟨?_, k, ?_⟩
        · simp [saveCount, restoreCount, saveCount_append, restoreCount_append, hbS, hbR,
            hk, saveCount_map_drawStroke, restoreCount_map_drawStroke,
            saveCount_take_drawStroke, restoreCount_take_drawStroke]
        · simp [strokesDrawn, strokesDrawn_append, hbD, hk, strokesDrawn_map_drawStroke,
            strokesDrawn_take_drawStroke]

/-- C6 counterexample: with margin `-10` the loosened bounds are inverted
(`mins > maxs`), yet `draw_to_cairo` returns `Ok(())` — no error is
propagated for the inverted box, contradicting the claim. -/
theorem C6_counterexample :
    ((Aabb.loosened ⟨0, 0, 1, 1⟩ (-10)).minsX > (Aabb.loosened ⟨0, 0, 1, 1⟩ (-10)).maxsX) ∧
    (((StrokeContent.mk [.brushStroke ⟨0, 0, 1, 1⟩ ⟨false, false⟩] none none).drawToCairo
        false false false (-10) 1).2 = true) := by
  constructor
  · norm_num [Aabb.loosened]
  · decide

/-- C6 amended: `draw_to_cairo` performs no validity check on the loosened
bounds: for every margin — including one that inverts the box — it silently
passes the (possibly inverted) loosened rectangle to the backend clip and,
when the configured draws succeed, returns `Ok(())` instead of propagating an
error. -/
theorem C6_amended_no_inversion_check (c : StrokeContent) (db dp op : Bool)
    (margin scale : ℚ) (b : Aabb) (hb : c.bounds = some b)
    (hbg : ∀ bg, c.background = some bg → bg.drawFails = false)
    (hstrokes : ∀ s ∈ c.strokes,
      (effectiveDrawnStroke op c.imageBounds s).drawFails = false) :
    (c.drawToCairo db dp op margin scale).2 = true ∧
    ∃ rest, (c.drawToCairo db dp op margin scale).1 =
      .save :: .rectangle (b.minsX - margin) (b.minsY - margin)
          (b.maxsX + margin - (b.minsX - margin)) (b.maxsY + margin - (b.minsY - margin)) ::
        .clip :: rest := by
  have hbgok := backgroundPass_ok c db dp op (b.loosened margin) hbg
  have hloop := drawStrokesLoop_ok op scale c.imageBounds c.strokes hstrokes
  simp only [StrokeContent.drawToCairo, hb, hbgok, hloop, if_true]
  exact ⟨by trivial, _, rfl⟩

/-- Witness for C6's amended claim at a concrete inverting margin `-10`. -/
theorem C6_amended_no_inversion_check_witness :
    (StrokeContent.mk [.brushStroke ⟨0, 0, 1, 1⟩ ⟨false, false⟩] none none).bounds =
      some ⟨0, 0, 1, 1⟩ ∧
    (((StrokeContent.mk [.brushStroke ⟨0, 0, 1, 1⟩ ⟨false, false⟩] none none).drawToCairo
        false false false (-10) 1).2 = true) ∧
    ∃ rest, ((StrokeContent.mk [.brushStroke ⟨0, 0, 1, 1⟩ ⟨false, false⟩] none none).drawToCairo
        false false false (-10) 1).1 =
      .save :: .rectangle ((Aabb.mk 0 0 1 1).minsX - (-10)) ((Aabb.mk 0 0 1 1).minsY - (-10))
          ((Aabb.mk 0 0 1 1).maxsX + (-10) - ((Aabb.mk 0 0 1 1).minsX - (-10)))
          ((Aabb.mk 0 0 1 1).maxsY + (-10) - ((Aabb.mk 0 0 1 1).minsY - (-10))) ::
        .clip :: rest :=
  ⟨by decide,
    (C6_amended_no_inversion_check (.mk [.brushStroke ⟨0, 0, 1, 1⟩ ⟨false, false⟩] none none)
      false false false (-10) 1 ⟨0, 0, 1, 1⟩ (by decide) (fun bg h => nomatch h)
      (by decide)).1,
    (C6_amended_no_inversion_check (.mk [.brushStroke ⟨0, 0, 1, 1⟩ ⟨false, false⟩] none none)
      false false false (-10) 1 ⟨0, 0, 1, 1⟩ (by decide) (fun bg h => nomatch h)
      (by decide)).2⟩

end Rnote
